import Mathlib

/-!
Verification development for the vue-router core: route table builder
(src/create-route-map.js), matcher (src/create-matcher.js), navigation
transition engine (src/history/base.js), guard queue runner
(src/util/async.js), async view resolution (src/util/resolve-components.js)
and the router facade (src/index.js).

The JavaScript source is embedded shallowly:

* pure functions become Lean functions;
* the recursion through `match` (redirects and aliases) and through the
  route-tree builder is made total with an explicit fuel argument — fuel
  exhaustion returns `none` (respectively leaves the state unchanged) and
  models the source's unbounded recursion running out of stack;
* JavaScript objects used as string-keyed dictionaries become either
  association lists (`List (String × _)`, insertion order preserved, as in
  the source's `for … in` loops) or functions `String → Option _`;
* the external `path-to-regexp` compiler and the utility modules that are
  not part of the provided source tree (util/route.js, util/location.js,
  util/path.js, util/params.js) are modelled from the specification; each
  such definition carries a doc comment starting with `Modelled from the
  spec:`.
-/

namespace VueRouter

/-! ## Association-list helpers (JavaScript objects used as dictionaries) -/

/-- Lookup in an association list: the value of the first entry with the
given key, mirroring JavaScript property access on an object whose keys
are written once. -/
def assocFind (k : String) : List (String × α) → Option α
  | [] => none
  | (k', v) :: rest => if k' = k then some v else assocFind k rest

/-- JavaScript property assignment `o[k] = v`: replaces the value of an
existing key in place, otherwise appends the new entry. -/
def assocSet (k : String) (v : α) : List (String × α) → List (String × α)
  | [] => [(k, v)]
  | (k', v') :: rest => if k' = k then (k, v) :: rest else (k', v') :: assocSet k v rest

/-! ## String utilities

Paths are manipulated through their character lists; these helpers model
the JavaScript string operations used by the source. -/

/-- Split a character list at every occurrence of the separator, keeping
empty pieces, like JavaScript `String.prototype.split`. -/
def splitChars (sep : Char) : List Char → List (List Char)
  | [] => [[]]
  | c :: rest =>
    if c = sep then [] :: splitChars sep rest
    else
      match splitChars sep rest with
      | [] => [[c]]
      | piece :: pieces => (c :: piece) :: pieces

/-- JavaScript `path.split('/')`. -/
def splitSlash (s : String) : List String :=
  (splitChars '/' s.data).map String.mk

/-- JavaScript `parts.join('/')`. -/
def joinSlash (parts : List String) : String :=
  String.intercalate "/" parts

/-- JavaScript `path.replace(/\/$/, '')`: drop a single trailing slash. -/
def stripTrailingSlash (s : String) : String :=
  if s.data.getLast? = some '/' then String.mk s.data.dropLast else s

/-- Character-level body of `cleanPath`: the global replacement of `//`
by `/` scans left to right and continues after each replacement. -/
def cleanChars : List Char → List Char
  | '/' :: '/' :: rest => '/' :: cleanChars rest
  | c :: rest => c :: cleanChars rest
  | [] => []

/-- Modelled from the spec: util/path.js `cleanPath` (paths are
"slash-cleaned"), i.e. `path.replace(/\/\//g, '/')`. -/
def cleanPath (s : String) : String :=
  String.mk (cleanChars s.data)

/-- Lower-case a string character-wise (the external pattern compiler is
case-insensitive by default, `sensitive: false`). -/
def lowerStr (s : String) : String :=
  String.mk (s.data.map Char.toLower)

/-! ## Compiled path patterns

Modelled from the spec: the source delegates path compilation to the
external `path-to-regexp` library (§4.1: "Compiles the normalized path
into a positional-parameter pattern with a keys list (name,
optional-flag)").  A compiled pattern is represented as the list of its
slash-separated segments: literal text, a named parameter (with its
optional flag, written `:name` / `:name?` in the path), or the terminal
wildcard `*`. -/

inductive Seg where
  | lit (s : String)
  | param (pname : String) (optional : Bool)
  | star
deriving DecidableEq

/-- A parameter-key descriptor of a compiled pattern (`regex.keys` entries:
name and optional flag).  The wildcard key's numeric name `0` is falsy in
JavaScript and is modelled by the empty string. -/
structure RKey where
  pname : String
  optional : Bool
deriving DecidableEq

/-- Modelled from the spec: compile one slash-separated piece of a path. -/
def compileSeg (segment : String) : Seg :=
  if segment = "*" then Seg.star
  else
    match segment.data with
    | ':' :: rest =>
      if rest.getLast? = some '?' then Seg.param (String.mk rest.dropLast) true
      else Seg.param (String.mk rest) false
    | _ => Seg.lit segment

/-- Modelled from the spec: compile a route path into its segment list. -/
def compileSegs (path : String) : List Seg :=
  (splitSlash path).map compileSeg

/-- Modelled from the spec: the ordered `keys` list of a compiled pattern. -/
def regexKeys (segs : List Seg) : List RKey :=
  segs.filterMap (fun s =>
    match s with
    | Seg.param n o => some ⟨n, o⟩
    | Seg.star => some ⟨"", false⟩
    | Seg.lit _ => none)

/-! ## Parameter maps

`params` objects are association lists from parameter name to captured
value; a `none` value models a JavaScript property that is present but
`undefined` (an unmatched optional capture group). -/

abbrev Params := List (String × Option String)

/-- Modelled from the spec: execute a compiled pattern against the
segments of a location path, producing the list of capture-group values
(`none` = unmatched optional group).  Literal segments compare
case-insensitively (`sensitive: false` default); a parameter captures one
non-empty segment; an optional parameter may also be skipped; the terminal
wildcard captures the remainder of the path. -/
def matchSegs : List Seg → List String → Option (List (Option String))
  | [], [] => some []
  | [], _ :: _ => none
  | Seg.star :: _, parts => some [some (joinSlash parts)]
  | Seg.lit s :: ps, t :: ts => if lowerStr s = lowerStr t then matchSegs ps ts else none
  | Seg.lit _ :: _, [] => none
  | Seg.param _ opt :: ps, t :: ts =>
    if t = "" then none
    else
      match (matchSegs ps ts).map (some t :: ·) with
      | some caps => some caps
      | none => if opt then (matchSegs ps (t :: ts)).map (none :: ·) else none
  | Seg.param _ opt :: ps, [] =>
    if opt then (matchSegs ps []).map (none :: ·) else none

/-- The capture-assignment loop of `matchRoute` (src/create-matcher.js):
`params[key.name || 'pathMatch'] = val` for each capture group.  Percent
decoding (`decodeURIComponent`) is the identity on the unescaped strings
considered here. -/
def assignParams : List RKey → List (Option String) → Params → Params
  | k :: ks, v :: vs, params =>
    assignParams ks vs (assocSet (if k.pname = "" then "pathMatch" else k.pname) v params)
  | _, _, params => params

/-- matchRoute from src/create-matcher.js: test a compiled pattern against
a path and extract positional parameters into `params`.  Returns the
updated params on success (`true` in the source, which mutates `params` in
place) and `none` on failure. -/
def matchRoute (keys : List RKey) (segs : List Seg) (path : String) (params : Params) :
    Option Params :=
  match matchSegs segs (splitSlash path) with
  | none => none
  | some caps => some (assignParams keys caps params)

/-- Modelled from the spec: util/params.js `fillParams` — fill a path
template segment-by-segment; a missing required parameter makes the whole
fill fail (the source catches the compiler's error and returns `''`). -/
def fillSegs : List Seg → Params → Option (List String)
  | [], _ => some []
  | Seg.lit s :: ps, params => (fillSegs ps params).map (s :: ·)
  | Seg.param n opt :: ps, params =>
    (match assocFind n params with
     | some (some v) => (fillSegs ps params).map (v :: ·)
     | _ => if opt then fillSegs ps params else none)
  | Seg.star :: ps, params =>
    (match assocFind "pathMatch" params with
     | some (some v) => (fillSegs ps params).map (v :: ·)
     | _ => none)

/-- Modelled from the spec: "Fill the record's path template with the
resolved params" (util/params.js); a failed fill yields `''`. -/
def fillParams (path : String) (params : Params) : String :=
  match fillSegs (compileSegs path) params with
  | some parts => joinSlash parts
  | none => ""

/-! ## Ordered record diff (`resolveQueue`, src/history/base.js)

The source compares records with JavaScript identity (`!==`); matched
chains are prefixes of the declaration tree, so identity and value
equality agree there.  The embedding uses decidable equality. -/

/-- The value of the loop variable `i` when `resolveQueue`'s `for` loop
stops: the loop walks `i` from `0` to `max(current.length, next.length)`
and breaks at the first `i` with `current[i] !== next[i]` (an out-of-range
read yields `undefined`, which differs from every record).  Rendered as a
simultaneous walk over both chains. -/
def divergeIdx [DecidableEq α] : List α → List α → Nat
  | x :: xs, y :: ys => if x = y then divergeIdx xs ys + 1 else 0
  | _, _ => 0

/-- resolveQueue from src/history/base.js: split the current and target
matched chains at the first index where they differ. -/
def resolveQueue [DecidableEq α] (current next : List α) :
    List α × List α × List α :=
  let i := divergeIdx current next
  (next.take i, next.drop i, current.drop i)

/-! ## Route declarations and records (src/create-route-map.js)

The view-layer fields of a record (`components`, `instances`,
`beforeEnter`, `meta`, `props`) belong to the excluded host-runtime
interface and are not part of this model; the navigation claims depend
only on the fields kept here. -/

/-- Query objects (external (de)serialization collaborator). -/
abbrev QueryT := List (String × String)

/-- A `redirect` option in data form (string, or object with `path`/`name`
and optional `query`/`hash`/`params` overrides).  The function form of
`redirect` is arbitrary host code and is outside this model. -/
inductive RedirectTarget where
  | toPath (p : String)
  | toLoc (rpath : Option String) (rname : Option String)
      (query : Option QueryT) (hash : Option String) (params : Option Params)
deriving DecidableEq

/-- A user route declaration (`RouteConfig`): `path`, optional `name`,
optional `redirect`, `alias` entries (absent = the empty list),
`children`, and the `strict` flag of `pathToRegexpOptions`. -/
inductive RouteConfig where
  | mk (path : String) (cname : Option String) (redirect : Option RedirectTarget)
      (aliasList : List String) (children : List RouteConfig) (strict : Bool)

def RouteConfig.path : RouteConfig → String
  | .mk p _ _ _ _ _ => p

def RouteConfig.cname : RouteConfig → Option String
  | .mk _ n _ _ _ _ => n

def RouteConfig.redirect : RouteConfig → Option RedirectTarget
  | .mk _ _ r _ _ _ => r

def RouteConfig.aliasList : RouteConfig → List String
  | .mk _ _ _ a _ _ => a

def RouteConfig.children : RouteConfig → List RouteConfig
  | .mk _ _ _ _ c _ => c

def RouteConfig.strict : RouteConfig → Bool
  | .mk _ _ _ _ _ s => s

/-- A compiled route record (src/create-route-map.js lines 113-136):
fully-qualified normalized `path`, the compiled pattern (`regex` keys and
segments), `name`, the `parent` back-reference, the `matchAs` alias
target, and `redirect`. -/
inductive RouteRecord where
  | mk (path : String) (keys : List RKey) (segs : List Seg)
      (name : Option String) (parent : Option RouteRecord)
      (matchAs : Option String) (redirect : Option RedirectTarget)

def RouteRecord.path : RouteRecord → String
  | .mk p _ _ _ _ _ _ => p

def RouteRecord.keys : RouteRecord → List RKey
  | .mk _ k _ _ _ _ _ => k

def RouteRecord.segs : RouteRecord → List Seg
  | .mk _ _ s _ _ _ _ => s

def RouteRecord.name : RouteRecord → Option String
  | .mk _ _ _ n _ _ _ => n

def RouteRecord.parent : RouteRecord → Option RouteRecord
  | .mk _ _ _ _ p _ _ => p

def RouteRecord.matchAs : RouteRecord → Option String
  | .mk _ _ _ _ _ m _ => m

def RouteRecord.redirect : RouteRecord → Option RedirectTarget
  | .mk _ _ _ _ _ _ r => r

/-- The three lookup structures built by createRouteMap.  The two maps are
string-keyed dictionaries, embedded as functions. -/
structure RTable where
  pathList : List String
  pathMap : String → Option RouteRecord
  nameMap : String → Option RouteRecord

def RTable.empty : RTable :=
  ⟨[], fun _ => none, fun _ => none⟩

/-- normalizePath from src/create-route-map.js: strip a trailing slash
unless strict, keep absolute paths, and otherwise prepend the parent's
path with slash-cleaning. -/
def normalizePath (path : String) (parent : Option RouteRecord) (strict : Bool) : String :=
  let path := if strict then path else stripTrailingSlash path
  if path.data.head? = some '/' then path
  else
    match parent with
    | none => path
    | some par => cleanPath (par.path ++ "/" ++ path)

/-- The `if (!pathMap[record.path])` registration step of addRouteRecord
(src/create-route-map.js lines 169-174): first registration wins. -/
def insertPathRecord (s : RTable) (record : RouteRecord) : RTable :=
  if (s.pathMap record.path).isSome then s
  else
    { s with pathList := s.pathList ++ [record.path],
             pathMap := fun p => if p = record.path then some record else s.pathMap p }

/-- The name-registration step of addRouteRecord (lines 203-211): a name
already present is not overwritten (duplicate names only warn). -/
def insertNameRecord (s : RTable) (record : RouteRecord) : RTable :=
  match record.name with
  | none => s
  | some nm =>
    if (s.nameMap nm).isSome then s
    else { s with nameMap := fun q => if q = nm then some record else s.nameMap q }

/-- The three mutually recursive entry points of the builder: one
declaration, a list of declarations (children or top-level `routes`), and
the alias loop of one declaration. -/
inductive BCall where
  | one (cfg : RouteConfig) (parent : Option RouteRecord) (matchAs : Option String)
  | many (cfgs : List RouteConfig) (parent : Option RouteRecord) (matchAs : Option String)
  | aliases (al : List String) (children : List RouteConfig)
      (parent : Option RouteRecord) (target : String)

/-- addRouteRecord from src/create-route-map.js, with fuel making the
tree/alias recursion total (fuel exhaustion leaves the tables unchanged).
`BCall.one` builds the record, recurses into the children (which register
before the record itself, as in the source), registers path and map entry
unless the path is already taken, expands the aliases against
`record.path || '/'`, and finally registers the name.  `BCall.many` walks
a declaration list computing each child's `matchAs`
(`cleanPath(matchAs + '/' + child.path)` when the parent is itself an
alias expansion).  `BCall.aliases` re-invokes the builder on the synthetic
alias declaration `{path: alias, children: route.children}`. -/
def addRouteRecordGo : Nat → BCall → RTable → RTable
  | 0, _, s => s
  | fuel + 1, BCall.one cfg parent matchAs, s =>
    match cfg with
    | RouteConfig.mk path cname redirect al children strict =>
      let normalizedPath := normalizePath path parent strict
      let record : RouteRecord :=
        RouteRecord.mk normalizedPath (regexKeys (compileSegs normalizedPath))
          (compileSegs normalizedPath) cname parent matchAs redirect
      let s1 := addRouteRecordGo fuel (BCall.many children (some record) matchAs) s
      let s2 := insertPathRecord s1 record
      let s3 := addRouteRecordGo fuel
        (BCall.aliases al children parent (if record.path = "" then "/" else record.path)) s2
      insertNameRecord s3 record
  | _ + 1, BCall.many [] _ _, s => s
  | fuel + 1, BCall.many (cfg :: rest) parent matchAs, s =>
    let childMatchAs := matchAs.map (fun m => cleanPath (m ++ "/" ++ cfg.path))
    let s1 := addRouteRecordGo fuel (BCall.one cfg parent childMatchAs) s
    addRouteRecordGo fuel (BCall.many rest parent matchAs) s1
  | _ + 1, BCall.aliases [] _ _ _, s => s
  | fuel + 1, BCall.aliases (a :: rest) children parent target, s =>
    let aliasCfg : RouteConfig := RouteConfig.mk a none none [] children false
    let s1 := addRouteRecordGo fuel (BCall.one aliasCfg parent (some target)) s
    addRouteRecordGo fuel (BCall.aliases rest children parent target) s1

/-- The final `ensure wildcard routes are always at the end` pass of
createRouteMap: the splice/push loop scans the original entries left to
right, removing every literal `*` and appending it behind the scanned
region; rendered with the accumulated wildcards as a second argument. -/
def wildcardLoop : List String → List String → List String
  | [], stars => stars
  | p :: rest, stars =>
    if p = "*" then wildcardLoop rest (stars ++ [p])
    else p :: wildcardLoop rest stars

/-- createRouteMap from src/create-route-map.js: fold addRouteRecord over
the declarations (into the optionally pre-existing tables, as used by
addRoutes) and pin wildcard paths to the end of the path list. -/
def createRouteMap (fuel : Nat) (routes : List RouteConfig) (old : RTable) : RTable :=
  let s := addRouteRecordGo fuel (BCall.many routes none none) old
  { s with pathList := wildcardLoop s.pathList [] }

/-- The table invariant of §3: a path has a record in `pathMap` exactly
when it is listed in `pathList`, and `pathList` has no duplicates. -/
def TableInv (s : RTable) : Prop :=
  (∀ p, (s.pathMap p).isSome ↔ p ∈ s.pathList) ∧ s.pathList.Nodup

/-! ## Locations and routes (util/location.js, util/route.js) -/

/-- A navigation target object.  `_normalized` short-circuits
normalizeLocation, as in the source. -/
structure Location where
  _normalized : Bool := false
  name : Option String := none
  path : Option String := none
  params : Params := []
  query : QueryT := []
  hash : String := ""

/-- Modelled from the spec: a Route snapshot (§3) — `path`, `name`,
`params`, `query`, `hash`, `fullPath` (path+query+hash), the `matched`
chain from root ancestor to leaf, and the `redirectedFrom` full path. -/
structure Route where
  name : Option String := none
  path : String := "/"
  hash : String := ""
  query : QueryT := []
  params : Params := []
  fullPath : String := "/"
  matched : List RouteRecord := []
  redirectedFrom : Option String := none

/-- Modelled from the spec: the external query serializer; the empty query
serializes to the empty string, anything else to a leading question mark
followed by ampersand-joined pairs. -/
def stringifyQuery : QueryT → String
  | [] => ""
  | q => "?" ++ String.intercalate "&" (q.map (fun kv => kv.1 ++ "=" ++ kv.2))

/-- Modelled from the spec: `fullPath = path + query + hash` (§3), with
`path || '/'`. -/
def getFullPath (loc : Location) : String :=
  (loc.path.getD "/") ++ stringifyQuery loc.query ++ loc.hash

/-- Modelled from the spec: the `matched` chain is "formed by walking
`parent` links from the record up to the root and reversing" (§4.2). -/
def formatMatch : RouteRecord → List RouteRecord
  | RouteRecord.mk p k sg nm none ma rd => [RouteRecord.mk p k sg nm none ma rd]
  | RouteRecord.mk p k sg nm (some par) ma rd =>
    formatMatch par ++ [RouteRecord.mk p k sg nm (some par) ma rd]

/-- Modelled from the spec: util/route.js `createRoute` — freeze a Route
from a record and a location (`name: location.name || record.name`,
`path: location.path || '/'`, matched chain from the parent walk, empty
chain when there is no record). -/
def createRoute (record : Option RouteRecord) (loc : Location)
    (redirectedFrom : Option Location) : Route :=
  { name := match loc.name with
            | some n => some n
            | none => record.bind RouteRecord.name
    path := loc.path.getD "/"
    hash := loc.hash
    query := loc.query
    params := loc.params
    fullPath := getFullPath loc
    matched := match record with
               | none => []
               | some r => formatMatch r
    redirectedFrom := redirectedFrom.map getFullPath }

/-- The result of util/location.js `parsePath`: raw path, raw query string
(without the question mark) and hash (with the hash mark). -/
structure ParsedPath where
  path : String
  query : String
  hash : String

/-- Modelled from the spec: util/location.js `parsePath` — cut the hash
fragment at the first hash mark, then the query at the first question
mark. -/
def parsePath (s : String) : ParsedPath :=
  let l := s.data
  let beforeHash := l.takeWhile (fun c => c != '#')
  let hashPart := l.dropWhile (fun c => c != '#')
  let pathPart := beforeHash.takeWhile (fun c => c != '?')
  let queryPart := (beforeHash.dropWhile (fun c => c != '?')).drop 1
  ⟨String.mk pathPart, String.mk queryPart, String.mk hashPart⟩

/-- Modelled from the spec: util/path.js `resolvePath` — an absolute
`relative` wins; a query or hash continuation is appended to the base;
otherwise the relative segments are resolved against the base's directory
stack. -/
def resolvePath (relative base : String) (append : Bool) : String :=
  match relative.data.head? with
  | some '/' => relative
  | some '?' => base ++ relative
  | some '#' => base ++ relative
  | _ =>
    let stack0 := splitSlash base
    let stack1 := if !append || stack0.getLast? = some "" then stack0.dropLast else stack0
    let stack2 := (splitSlash relative).foldl
      (fun st seg =>
        if seg = ".." then st.dropLast
        else if seg = "." then st
        else st ++ [seg]) stack1
    let stack3 := if stack2.head? = some "" then stack2 else "" :: stack2
    joinSlash stack3

/-- Modelled from the spec: the external query parser (ampersand-separated
`key=value` pairs). -/
def parseQuery (s : String) : QueryT :=
  if s = "" then []
  else (splitChars '&' s.data).map (fun kv =>
    (String.mk (kv.takeWhile (fun c => c != '=')),
     String.mk ((kv.dropWhile (fun c => c != '=')).drop 1)))

/-- Modelled from the spec: util/query.js `resolveQuery` — parse the query
string of the path, then let the location's own query object override
key-by-key. -/
def resolveQuery (qs : String) (extra : QueryT) : QueryT :=
  extra.foldl (fun acc kv => assocSet kv.1 kv.2 acc) (parseQuery qs)

/-- A raw navigation target: a location string or a location object. -/
inductive RawLocation where
  | str (s : String)
  | loc (l : Location)

/-- Modelled from the spec: util/location.js `normalizeLocation`.  A string
becomes `{path: raw}`; an already `_normalized` object or a named object
passes through; an object with `params` but no path merges the params over
the current route (named when the current route is named, otherwise by
filling the current leaf record's path); otherwise the raw path is parsed
and resolved against the current route's path. -/
def normalizeLocation (raw : RawLocation) (current : Option Route) (append : Bool) : Location :=
  let next : Location := match raw with
    | RawLocation.str s => { path := some s }
    | RawLocation.loc l => l
  if next._normalized then next
  else if next.name.isSome then next
  else if next.path.isNone && !next.params.isEmpty && current.isSome then
    match current with
    | none => next
    | some cur =>
      let params := next.params.foldl (fun acc kv => assocSet kv.1 kv.2 acc) cur.params
      if cur.name.isSome then
        { next with _normalized := true, name := cur.name, params := params }
      else
        match cur.matched.getLast? with
        | some rawRecord =>
          { next with _normalized := true, path := some (fillParams rawRecord.path params) }
        | none => next
  else
    let parsedPath := parsePath (next.path.getD "")
    let basePath := match current with
      | some cur => if cur.path = "" then "/" else cur.path
      | none => "/"
    let path := if parsedPath.path ≠ "" then resolvePath parsedPath.path basePath append
                else basePath
    let query := resolveQuery parsedPath.query next.query
    let hash0 := if next.hash ≠ "" then next.hash else parsedPath.hash
    let hash := if hash0 ≠ "" && hash0.data.head? != some '#' then "#" ++ hash0 else hash0
    { _normalized := true, name := none, path := some path, params := [],
      query := query, hash := hash }

/-! ## The matcher (src/create-matcher.js)

`match`, `_createRoute`, `redirect` and `alias` are mutually recursive
through redirect and alias resolution; the mutual bundle is embedded as a
single fuel-indexed function over a call tag, fuel being consumed at every
transfer (the source has no cycle guard, §9). -/

/-- The required (non-optional) parameter names of a record's compiled
pattern (src/create-matcher.js lines 64-66). -/
def paramNamesOf (record : RouteRecord) : List String :=
  (record.keys.filter (fun k => !k.optional)).map RKey.pname

/-- The parameter-inheritance loop of the named branch of `match`
(src/create-matcher.js lines 73-79): every key of `currentRoute.params`
that is not yet in `location.params` and is a required parameter name of
the named record is copied in. -/
def inheritParams (paramNames : List String) (locParams curParams : Params) : Params :=
  curParams.foldl
    (fun acc kv =>
      if (assocFind kv.1 acc).isNone && kv.1 ∈ paramNames then acc ++ [kv] else acc)
    locParams

/-- The `pathList` scan of the path branch of `match` (src/create-matcher.js
lines 86-95): first structural match wins. -/
def scanPathList (tbl : RTable) (lpath : String) : List String → Option (RouteRecord × Params)
  | [] => none
  | p :: rest =>
    match tbl.pathMap p with
    | none => scanPathList tbl lpath rest
    | some record =>
      match matchRoute record.keys record.segs lpath [] with
      | some params => some (record, params)
      | none => scanPathList tbl lpath rest

/-- resolveRecordPath from src/create-matcher.js. -/
def resolveRecordPath (path : String) (record : RouteRecord) : String :=
  resolvePath path (match record.parent with
                    | some par => par.path
                    | none => "/") true

/-- The call tags of the matcher's mutual recursion: `match`,
`_createRoute`, `redirect`, `alias`. -/
inductive MCall where
  | mtch (raw : RawLocation) (current : Option Route) (redirectedFrom : Option Location)
  | mcreate (record : Option RouteRecord) (loc : Location) (redirectedFrom : Option Location)
  | mredirect (record : RouteRecord) (loc : Location)
  | malias (record : RouteRecord) (loc : Location) (matchAs : String)

/-- The matcher of src/create-matcher.js over a fixed route table, with
fuel (`none` = the unbounded redirect/alias recursion exhausted the
stack).  Branch for branch:

* `mtch` is `match` (lines 48-101): normalize, then the named branch
  (name lookup, required-parameter inheritance, path-template fill) or the
  priority-ordered `pathList` scan;
* `mcreate` is `_createRoute` (lines 183-191): dispatch on `redirect` and
  `matchAs`;
* `mredirect` is `redirect` (lines 103-158): override query/hash/params,
  then re-match by name or by the record-relative filled path (the
  function form of `redirect` is host code, outside the model);
* `malias` is `alias` (lines 160-173): fill `matchAs`, re-match it, and
  build the route from the alias target's leaf record. -/
def matchGo (tbl : RTable) : Nat → MCall → Option Route
  | 0, _ => none
  | fuel + 1, MCall.mtch raw current redirectedFrom =>
    let location := normalizeLocation raw current false
    (match location.name with
     | some nm =>
       (match tbl.nameMap nm with
        | none => matchGo tbl fuel (MCall.mcreate none location redirectedFrom)
        | some record =>
          let paramNames := paramNamesOf record
          let params := inheritParams paramNames location.params
            (match current with
             | some cur => cur.params
             | none => [])
          let location := { location with
            params := params, path := some (fillParams record.path params) }
          matchGo tbl fuel (MCall.mcreate (some record) location redirectedFrom))
     | none =>
       (match location.path with
        | some lpath =>
          if lpath ≠ "" then
            match scanPathList tbl lpath tbl.pathList with
            | some (record, params) =>
              matchGo tbl fuel
                (MCall.mcreate (some record) { location with params := params } redirectedFrom)
            | none =>
              matchGo tbl fuel
                (MCall.mcreate none { location with params := [] } redirectedFrom)
          else matchGo tbl fuel (MCall.mcreate none location redirectedFrom)
        | none => matchGo tbl fuel (MCall.mcreate none location redirectedFrom)))
  | fuel + 1, MCall.mcreate record loc rf =>
    (match record with
     | some r =>
       (match r.redirect with
        | some _ => matchGo tbl fuel (MCall.mredirect r (rf.getD loc))
        | none =>
          (match r.matchAs with
           | some ma => matchGo tbl fuel (MCall.malias r loc ma)
           | none => some (createRoute (some r) loc rf)))
     | none => some (createRoute none loc rf))
  | fuel + 1, MCall.mredirect record location =>
    (match record.redirect with
     | none => some (createRoute none location none)
     | some rt =>
       let re := match rt with
         | RedirectTarget.toPath p => RedirectTarget.toLoc (some p) none none none none
         | other => other
       (match re with
        | RedirectTarget.toPath _ => some (createRoute none location none)
        | RedirectTarget.toLoc rpath rname rquery rhash rparams =>
          let query := rquery.getD location.query
          let hash := rhash.getD location.hash
          let params := rparams.getD location.params
          (match rname with
           | some nm =>
             matchGo tbl fuel (MCall.mtch
               (RawLocation.loc { _normalized := true, name := some nm,
                                  query := query, hash := hash, params := params })
               none (some location))
           | none =>
             (match rpath with
              | some p =>
                let rawPath := resolveRecordPath p record
                let resolvedPath := fillParams rawPath params
                matchGo tbl fuel (MCall.mtch
                  (RawLocation.loc { _normalized := true, path := some resolvedPath,
                                     query := query, hash := hash })
                  none (some location))
              | none => some (createRoute none location none)))))
  | fuel + 1, MCall.malias _record location matchAs =>
    let aliasedPath := fillParams matchAs location.params
    (match matchGo tbl fuel (MCall.mtch
        (RawLocation.loc { _normalized := true, path := some aliasedPath }) none none) with
     | none => none
     | some aliasedMatch =>
       (match aliasedMatch.matched.getLast? with
        | some aliasedRecord =>
          matchGo tbl fuel
            (MCall.mcreate (some aliasedRecord) { location with params := aliasedMatch.params } none)
        | none =>
          matchGo tbl fuel
            (MCall.mcreate none { location with params := aliasedMatch.params } none)))

/-- The public `match` of the matcher object. -/
def matchFn (tbl : RTable) (fuel : Nat) (raw : RawLocation) (current : Option Route)
    (redirectedFrom : Option Location) : Option Route :=
  matchGo tbl fuel (MCall.mtch raw current redirectedFrom)

/-! ## The transition engine (src/history/base.js `confirmTransition`)

Guards are embedded as data: each guard, when invoked, either calls its
continuation exactly once with one of the argument shapes distinguished by
the iterator's dispatch, or throws synchronously.  Errors are abstract
(`Nat` identifiers).  The run of one `confirmTransition` with a stable
`pending` reference (no superseding transition) is simulated to an effect
trace. -/

/-- Modelled from the spec: util/route.js `isSameRoute` restricted by §4.3
step 2 — "target and current Routes denote the same resolved
path/name/params/query/hash". -/
def isSameRoute (a b : Route) : Bool :=
  a.path == b.path && a.name == b.name && a.params == b.params &&
    a.query == b.query && a.hash == b.hash

/-- The redirect value a guard may pass to its continuation: a path
string, or an object carrying `path`/`name` and the `replace` flag. -/
inductive RedirTo where
  | rstr (s : String)
  | robj (rpath : Option String) (rname : Option String) (replace : Bool)
deriving DecidableEq

/-- The argument shapes of a guard continuation call, matching the
iterator's dispatch (src/history/base.js lines 324-346): anything that is
neither `false`, an error, nor a redirect location proceeds. -/
inductive ContArg where
  | proceed
  | isFalse
  | isErr (e : Nat)
  | toLoc (t : RedirTo)
deriving DecidableEq

/-- One guard's behaviour when invoked. -/
inductive GuardAction where
  | calls (a : ContArg)
  | throws (e : Nat)
deriving DecidableEq

/-- The values `abort` can receive: `false`, an error, the
NavigationDuplicated instance, or no argument (`none` in the effect
trace). -/
inductive AbortVal where
  | vFalse
  | vErr (e : Nat)
  | vDup (r : Route)

/-- The observable effects of one `confirmTransition` run. -/
structure TransEffects where
  ensureURLCalls : List Bool := []
  errorFanouts : List AbortVal := []
  onAbortCalls : List (Option AbortVal) := []
  pushCalls : List RedirTo := []
  replaceCalls : List RedirTo := []
  committed : Option Route := none
  guardsInvoked : Nat := 0

/-- The `abort` closure of confirmTransition (src/history/base.js lines
257-273): a genuine error that is not a NavigationDuplicated instance is
delivered to every registered error listener (when any are registered);
`onAbort` is then invoked with the value. -/
def abortEff (errorCbsCount : Nat) (err : Option AbortVal) (eff : TransEffects) : TransEffects :=
  let fanout := match err with
    | some (AbortVal.vErr e) => if 0 < errorCbsCount then [AbortVal.vErr e] else []
    | _ => []
  { eff with errorFanouts := eff.errorFanouts ++ fanout,
             onAbortCalls := eff.onAbortCalls ++ [err] }

/-- runQueue (src/util/async.js) driving the iterator of confirmTransition
(src/history/base.js lines 315-350): null entries are skipped; an invoked
guard that proceeds advances the queue; `false` or an error resyncs the
URL (`ensureURL(true)`) and aborts; a redirect location aborts with no
argument and then pushes (or replaces, when the object carries `replace`)
the new location; a synchronously thrown error is caught and aborted with.
Returns the accumulated effects and whether the whole queue proceeded. -/
def stepQueue (errorCbsCount : Nat) : List (Option GuardAction) → TransEffects → TransEffects × Bool
  | [], eff => (eff, true)
  | none :: rest, eff => stepQueue errorCbsCount rest eff
  | some g :: rest, eff =>
    let eff := { eff with guardsInvoked := eff.guardsInvoked + 1 }
    match g with
    | GuardAction.throws e => (abortEff errorCbsCount (some (AbortVal.vErr e)) eff, false)
    | GuardAction.calls ContArg.proceed => stepQueue errorCbsCount rest eff
    | GuardAction.calls ContArg.isFalse =>
      (abortEff errorCbsCount (some AbortVal.vFalse)
        { eff with ensureURLCalls := eff.ensureURLCalls ++ [true] }, false)
    | GuardAction.calls (ContArg.isErr e) =>
      (abortEff errorCbsCount (some (AbortVal.vErr e))
        { eff with ensureURLCalls := eff.ensureURLCalls ++ [true] }, false)
    | GuardAction.calls (ContArg.toLoc t) =>
      let eff := abortEff errorCbsCount none eff
      (match t with
       | RedirTo.robj _ _ true => ({ eff with replaceCalls := eff.replaceCalls ++ [t] }, false)
       | _ => ({ eff with pushCalls := eff.pushCalls ++ [t] }, false))

/-- The number of invoked (non-null) guards of a queue prefix that
proceed. -/
def countProceed (q : List (Option GuardAction)) : Nat :=
  (q.filter (fun g => g == some (GuardAction.calls ContArg.proceed))).length

/-- confirmTransition (src/history/base.js lines 253-389) for one
uninterrupted transition: the duplicate-navigation check aborts with a
NavigationDuplicated instance after resyncing the URL; otherwise the
composed guard queue runs, then the second queue (enter guards and
resolve hooks), and completion commits the target route.  The diff-based
queue composition itself is the caller's business here: both queues are
inputs. -/
def confirmTransition (errorCbsCount : Nat) (current route : Route)
    (queue postQueue : List (Option GuardAction)) : TransEffects :=
  if isSameRoute route current && route.matched.length == current.matched.length then
    abortEff errorCbsCount (some (AbortVal.vDup route)) { ensureURLCalls := [false] }
  else
    let r1 := stepQueue errorCbsCount queue {}
    if r1.2 then
      let r2 := stepQueue errorCbsCount postQueue r1.1
      if r2.2 then { r2.1 with committed := some route } else r2.1
    else r1.1

/-! ## Async view resolution (src/util/resolve-components.js)

Factory behaviours and the later resolution/rejection events are data; the
`once` wrappers are the per-factory settled sets, and the first-error
latch is the `error` field.  `nextCalls` records every invocation of the
step's continuation (`none` = `next()`, `some e` = `next(error)`). -/

/-- What a view-definition factory does synchronously when invoked:
nothing (settles later, e.g. a returned thenable), resolve, reject, or
throw (caught and routed to `reject`). -/
inductive FactBeh where
  | silent
  | resolveNow (v : Nat)
  | rejectNow (e : Nat)
  | throwNow (e : Nat)
deriving DecidableEq

/-- A view definition slot of an activated record: a concrete definition,
or an async factory (`typeof def === 'function' && def.cid === undefined`)
with its synchronous behaviour. -/
inductive ViewDef where
  | concrete (v : Nat)
  | factory (id : Nat) (beh : FactBeh)
deriving DecidableEq

/-- The state threaded through resolveAsyncComponents. -/
structure RAState where
  hasAsync : Bool := false
  pending : Nat := 0
  error : Option Nat := none
  resolvedOnce : List Nat := []
  rejectedOnce : List Nat := []
  comps : List (Nat × Nat) := []
  nextCalls : List (Option Nat) := []

/-- The `resolve` capability of one factory (src/util/resolve-components.js
lines 43-61), wrapped in `once`: a second call is a no-op; the first call
stores the resolved definition, decrements `pending`, and fires the
continuation when the counter reaches zero. -/
def raResolve (id v : Nat) (s : RAState) : RAState :=
  if id ∈ s.resolvedOnce then s
  else
    let p := s.pending - 1
    { s with resolvedOnce := s.resolvedOnce ++ [id],
             comps := s.comps ++ [(id, v)],
             pending := p,
             nextCalls := if p = 0 then s.nextCalls ++ [none] else s.nextCalls }

/-- The `reject` capability of one factory (lines 64-73), wrapped in
`once`: a second call of the same factory is a no-op; the first error to
arrive is latched and fails the step via `next(error)`; a rejection after
an error is already latched only warns. -/
def raReject (id e : Nat) (s : RAState) : RAState :=
  if id ∈ s.rejectedOnce then s
  else
    let s := { s with rejectedOnce := s.rejectedOnce ++ [id] }
    if s.error.isNone then { s with error := some e, nextCalls := s.nextCalls ++ [some e] }
    else s

/-- The discovery pass of resolveAsyncComponents over the flattened
(record, slot) definitions of the activated chain: each factory sets
`hasAsync`, increments `pending`, and is invoked (a synchronous throw is
caught and rejected). -/
def raDiscover : List ViewDef → RAState → RAState
  | [], s => s
  | ViewDef.concrete _ :: rest, s => raDiscover rest s
  | ViewDef.factory id beh :: rest, s =>
    let s := { s with hasAsync := true, pending := s.pending + 1 }
    let s := match beh with
      | FactBeh.silent => s
      | FactBeh.resolveNow v => raResolve id v s
      | FactBeh.rejectNow e => raReject id e s
      | FactBeh.throwNow e => raReject id e s
    raDiscover rest s

/-- resolveAsyncComponents (src/util/resolve-components.js lines 16-99):
run the discovery pass; when no factory was discovered, fire the
continuation synchronously (`if (!hasAsync) next()`). -/
def resolveAsyncComponents (defs : List ViewDef) : RAState :=
  let s := raDiscover defs {}
  if !s.hasAsync then { s with nextCalls := s.nextCalls ++ [none] } else s

/-- A later (asynchronous) settlement of one factory. -/
inductive RAEvent where
  | eresolve (id v : Nat)
  | ereject (id e : Nat)
deriving DecidableEq

def raStep (s : RAState) : RAEvent → RAState
  | RAEvent.eresolve id v => raResolve id v s
  | RAEvent.ereject id e => raReject id e s

/-- A full run: the synchronous pass followed by a schedule of later
settlements. -/
def raRun (defs : List ViewDef) (events : List RAEvent) : RAState :=
  events.foldl raStep (resolveAsyncComponents defs)

/-- The number of factory-form definitions discovered. -/
def countFactories (defs : List ViewDef) : Nat :=
  (defs.filter (fun d => match d with
    | ViewDef.factory _ _ => true
    | ViewDef.concrete _ => false)).length

/-- All factories of the list settle only asynchronously (none resolves,
rejects or throws during the discovery pass). -/
def allSilent (defs : List ViewDef) : Bool :=
  defs.all (fun d => match d with
    | ViewDef.factory _ beh => beh == FactBeh.silent
    | ViewDef.concrete _ => true)

/-! ## The router facade (src/index.js) -/

/-- The router state relevant to addRoutes: the matcher's table and
`history.current`.  The source compares `history.current` against the
START sentinel by object identity; `current = none` models "still the
START object", `some r` models any route installed by a completed
transition. -/
structure RouterState where
  table : RTable
  current : Option Route

/-- addRoutes of the matcher object (src/create-matcher.js lines 33-36):
re-invoke createRouteMap on the existing three structures. -/
def matcherAddRoutes (tbl : RTable) (fuel : Nat) (routes : List RouteConfig) : RTable :=
  createRouteMap fuel routes tbl

/-- VueRouter.addRoutes (src/index.js lines 351-356): delegate to the
matcher, then — when `history.current` is no longer the START sentinel —
start `transitionTo(history.getCurrentLocation())`.  The returned list
collects the locations passed to `transitionTo`. -/
def routerAddRoutes (s : RouterState) (fuel : Nat) (routes : List RouteConfig)
    (currentLocation : String) : RouterState × List String :=
  let s' : RouterState := { s with table := matcherAddRoutes s.table fuel routes }
  if s.current.isNone then (s', [])
  else (s', [currentLocation])

/-- How one navigation eventually concludes. -/
inductive NavOutcome where
  | completes (r : Route)
  | aborts (e : Nat)

/-- The state of the promise returned by push/replace. -/
inductive PromiseState where
  | resolved (r : Route)
  | rejected (e : Nat)

/-- `history.push(location, onComplete, onAbort)` invokes exactly one of
the two callbacks once the navigation concludes; callbacks are opaque
identifiers and the returned list records which were invoked. -/
def historyPushCalls (outcome : NavOutcome) (onComplete onAbort : Option Nat) : List Nat :=
  match outcome, onComplete, onAbort with
  | NavOutcome.completes _, some cb, _ => [cb]
  | NavOutcome.aborts _, _, some cb => [cb]
  | _, _, _ => []

/-- VueRouter.push (src/index.js lines 241-250): with neither callback
supplied and Promise available, return a promise wired to the navigation
outcome; otherwise delegate to history.push with the given callbacks and
return `undefined`. -/
def routerPush (promiseDefined : Bool) (onComplete onAbort : Option Nat)
    (outcome : NavOutcome) : Option PromiseState × List Nat :=
  if onComplete.isNone && onAbort.isNone && promiseDefined then
    (some (match outcome with
           | NavOutcome.completes r => PromiseState.resolved r
           | NavOutcome.aborts e => PromiseState.rejected e), [])
  else
    (none, historyPushCalls outcome onComplete onAbort)

/-- VueRouter.replace (src/index.js lines 259-268): identical shape to
push, delegating to history.replace. -/
def routerReplace (promiseDefined : Bool) (onComplete onAbort : Option Nat)
    (outcome : NavOutcome) : Option PromiseState × List Nat :=
  if onComplete.isNone && onAbort.isNone && promiseDefined then
    (some (match outcome with
           | NavOutcome.completes r => PromiseState.resolved r
           | NavOutcome.aborts e => PromiseState.rejected e), [])
  else
    (none, historyPushCalls outcome onComplete onAbort)

/-! ## Concrete fixtures

A small route table used to evaluate the matcher on concrete inputs: a
dynamic pattern registered before a static named route that it shadows. -/

def shadowRoutes : List RouteConfig :=
  [RouteConfig.mk "/a/:x" none none [] [] false,
   RouteConfig.mk "/a/b" (some "B") none [] [] false]

def shadowTbl : RTable :=
  createRouteMap 10 shadowRoutes RTable.empty

/-- The record the builder creates for the top-level declaration `/a/:x`. -/
def recAX : RouteRecord :=
  RouteRecord.mk "/a/:x" (regexKeys (compileSegs "/a/:x")) (compileSegs "/a/:x")
    none none none none

/-- A record with a required parameter (`uid`) and an optional one
(`pid`), for exercising named-navigation parameter inheritance. -/
def recUP : RouteRecord :=
  RouteRecord.mk "/u/:uid/p/:pid?" (regexKeys (compileSegs "/u/:uid/p/:pid?"))
    (compileSegs "/u/:uid/p/:pid?") (some "P") none none none

/-! ## Helper lemmas -/

theorem assocFind_append_of_ne {k k' : String} (h : k' ≠ k) (v : α) (l : List (String × α)) :
    assocFind k (l ++ [(k', v)]) = assocFind k l := by
  induction l with
  | nil => simp [assocFind, h]
  | cons hd tl ih =>
    by_cases hk : hd.1 = k <;> simp [assocFind, hk, ih]

theorem divergeIdx_prefix_eq [DecidableEq α] (cur nxt : List α) :
    ∀ j < divergeIdx cur nxt, cur[j]? = nxt[j]? := by
  induction cur generalizing nxt with
  | nil => intro j hj; simp [divergeIdx] at hj
  | cons x xs ih =>
    intro j hj
    cases nxt with
    | nil => simp [divergeIdx] at hj
    | cons y ys =>
      by_cases hxy : x = y
      · cases j with
        | zero => simp [hxy]
        | succ k =>
          simp [divergeIdx, hxy] at hj
          simpa using ih ys k (by omega)
      · simp [divergeIdx, hxy] at hj

theorem divergeIdx_ne [DecidableEq α] (cur nxt : List α)
    (h : divergeIdx cur nxt < Nat.max cur.length nxt.length) :
    cur[divergeIdx cur nxt]? ≠ nxt[divergeIdx cur nxt]? := by
  induction cur generalizing nxt with
  | nil =>
    cases nxt with
    | nil => simp [divergeIdx] at h
    | cons y ys => simp [divergeIdx]
  | cons x xs ih =>
    cases nxt with
    | nil => simp [divergeIdx]
    | cons y ys =>
      by_cases hxy : x = y
      · have h2 : divergeIdx xs ys + 1 < Nat.max xs.length ys.length + 1 := by
          simpa [divergeIdx, hxy, Nat.succ_max_succ] using h
        simpa [divergeIdx, hxy] using ih ys (by omega)
      · simp [divergeIdx, hxy]

theorem divergeIdx_eq_of [DecidableEq α] (cur nxt : List α) (i : Nat)
    (hpre : ∀ j < i, cur[j]? = nxt[j]?) (hne : cur[i]? ≠ nxt[i]?) :
    divergeIdx cur nxt = i := by
  induction i generalizing cur nxt with
  | zero =>
    cases cur with
    | nil =>
      cases nxt with
      | nil => simp at hne
      | cons y ys => simp [divergeIdx]
    | cons x xs =>
      cases nxt with
      | nil => simp [divergeIdx]
      | cons y ys =>
        have hxy : x ≠ y := by
          intro hcontra
          exact hne (by simp [hcontra])
        simp [divergeIdx, hxy]
  | succ k ih =>
    have h0 := hpre 0 (by omega)
    cases cur with
    | nil =>
      cases nxt with
      | nil => simp at hne
      | cons y ys => simp at h0
    | cons x xs =>
      cases nxt with
      | nil => simp at h0
      | cons y ys =>
        have hxy : x = y := by simpa using h0
        have hrec := ih xs ys
          (fun j hj => by simpa using hpre (j + 1) (by omega))
          (by simpa using hne)
        simp [divergeIdx, hxy, hrec]

theorem assocFind_append_left {k : String} {v : α} {l1 : List (String × α)}
    (h : assocFind k l1 = some v) (l2 : List (String × α)) :
    assocFind k (l1 ++ l2) = some v := by
  induction l1 with
  | nil => simp [assocFind] at h
  | cons hd tl ih =>
    by_cases hk : hd.1 = k
    · simp [assocFind, hk] at h ⊢
      exact h
    · simp [assocFind, hk] at h ⊢
      exact ih h

theorem inheritParams_found {pNames : List String} {curParams : Params} {k : String}
    {v : Option String} (locParams : Params)
    (h : assocFind k locParams = some v) :
    assocFind k (inheritParams pNames locParams curParams) = some v := by
  induction curParams generalizing locParams with
  | nil => simpa [inheritParams] using h
  | cons kv rest ih =>
    unfold inheritParams at ih ⊢
    simp only [List.foldl_cons]
    by_cases hcond : (assocFind kv.1 locParams).isNone && kv.1 ∈ pNames
    · rw [if_pos hcond]
      exact ih _ (assocFind_append_left h _)
    · rw [if_neg hcond]
      exact ih _ h

theorem assocFind_append_singleton_self {k : String} {v : α} {l : List (String × α)}
    (h : assocFind k l = none) : assocFind k (l ++ [(k, v)]) = some v := by
  induction l with
  | nil => simp [assocFind]
  | cons hd tl ih =>
    by_cases hh : hd.1 = k
    · simp [assocFind, hh] at h
    · simp [assocFind, hh] at h ⊢
      exact ih h

theorem inheritParams_required {pNames : List String} {k : String} {v : Option String} :
    ∀ {locParams curParams : Params},
      assocFind k locParams = none → assocFind k curParams = some v → k ∈ pNames →
      assocFind k (inheritParams pNames locParams curParams) = some v := by
  intro locParams curParams
  induction curParams generalizing locParams with
  | nil => intro _ hcur; simp [assocFind] at hcur
  | cons kv rest ih =>
    intro hloc hcur hmem
    unfold inheritParams
    simp only [List.foldl_cons]
    by_cases hk : kv.1 = k
    · have hv : kv.2 = v := by
        simpa [assocFind, hk] using hcur
      have hcond : ((assocFind kv.1 locParams).isNone && kv.1 ∈ pNames) = true := by
        simp [hk, hloc, hmem]
      rw [if_pos hcond]
      have hkv : kv = (k, v) := by
        rcases kv with ⟨k1, v1⟩
        simp only at hk hv
        simp [hk, hv]
      rw [hkv]
      exact inheritParams_found _ (assocFind_append_singleton_self hloc)
    · have hrest : assocFind k rest = some v := by
        simpa [assocFind, hk] using hcur
      by_cases hcond : (assocFind kv.1 locParams).isNone && kv.1 ∈ pNames
      · rw [if_pos hcond]
        refine ih ?_ hrest hmem
        rw [assocFind_append_of_ne hk kv.2 locParams]
        exact hloc
      · rw [if_neg hcond]
        exact ih hloc hrest hmem

theorem inheritParams_not_required {pNames : List String} {k : String}
    (hk : k ∉ pNames) :
    ∀ (locParams curParams : Params),
      assocFind k (inheritParams pNames locParams curParams) = assocFind k locParams := by
  intro locParams curParams
  induction curParams generalizing locParams with
  | nil => simp [inheritParams]
  | cons kv rest ih =>
    unfold inheritParams at ih ⊢
    simp only [List.foldl_cons]
    by_cases hcond : (assocFind kv.1 locParams).isNone && kv.1 ∈ pNames
    · have hne : kv.1 ≠ k := by
        intro hcontra
        rw [hcontra] at hcond
        simp [hk] at hcond
      rw [if_pos hcond, ih]
      exact assocFind_append_of_ne hne kv.2 locParams
    · rw [if_neg hcond]
      exact ih _

theorem insertPathRecord_inv (s : RTable) (r : RouteRecord) (h : TableInv s) :
    TableInv (insertPathRecord s r) := by
  rcases h with ⟨hiff, hnd⟩
  unfold insertPathRecord
  by_cases hmem : (s.pathMap r.path).isSome
  · simpa [hmem] using ⟨hiff, hnd⟩
  · have hnotin : r.path ∉ s.pathList := fun hc => hmem ((hiff r.path).mpr hc)
    simp only [hmem, if_false, Bool.false_eq_true]
    refine ⟨?_, ?_⟩
    · intro p
      by_cases hp : p = r.path
      · simp [hp]
      · simp [hp, hiff p]
    · simp [List.nodup_append, hnd, hnotin]

theorem insertNameRecord_inv (s : RTable) (r : RouteRecord) (h : TableInv s) :
    TableInv (insertNameRecord s r) := by
  unfold insertNameRecord
  rcases hn : r.name with _ | nm
  · exact h
  · by_cases hs : (s.nameMap nm).isSome
    · simpa [hs] using h
    · simpa [hs] using h

theorem addRouteRecordGo_inv : ∀ (fuel : Nat) (call : BCall) (s : RTable),
    TableInv s → TableInv (addRouteRecordGo fuel call s) := by
  intro fuel
  induction fuel with
  | zero =>
    intro call s h
    simpa [addRouteRecordGo] using h
  | succ n ih =>
    intro call s h
    cases call with
    | one cfg parent matchAs =>
      rcases cfg with ⟨path, cname, redirect, al, children, strict⟩
      simp only [addRouteRecordGo]
      exact insertNameRecord_inv _ _ (ih _ _ (insertPathRecord_inv _ _ (ih _ _ h)))
    | many cfgs parent matchAs =>
      cases cfgs with
      | nil => simpa [addRouteRecordGo] using h
      | cons cfg rest =>
        simp only [addRouteRecordGo]
        exact ih _ _ (ih _ _ h)
    | aliases al children parent target =>
      cases al with
      | nil => simpa [addRouteRecordGo] using h
      | cons a rest =>
        simp only [addRouteRecordGo]
        exact ih _ _ (ih _ _ h)

theorem wildcardLoop_eq : ∀ (l stars : List String),
    wildcardLoop l stars =
      l.filter (fun p => p != "*") ++ stars ++ l.filter (fun p => p == "*") := by
  intro l
  induction l with
  | nil => intro stars; simp [wildcardLoop]
  | cons p rest ih =>
    intro stars
    by_cases hp : p = "*"
    · subst hp
      simp [wildcardLoop, ih (stars ++ ["*"])]
    · simp [wildcardLoop, hp, ih stars]

theorem filter_partition_perm (l : List String) :
    List.Perm (l.filter (fun p => p != "*") ++ l.filter (fun p => p == "*")) l := by
  have hcongr : l.filter (fun x => ! (x != "*")) = l.filter (fun x => x == "*") := by
    apply List.filter_congr
    intro x _
    simp [bne]
  have h := List.filter_append_perm (fun p => p != "*") l
  rw [hcongr] at h
  exact h

theorem normalizeLocation_normalized (l : Location) (current : Option Route)
    (append : Bool) (h : l._normalized = true) :
    normalizeLocation (RawLocation.loc l) current append = l := by
  simp [normalizeLocation, h]

theorem matchGo_named_branch (tbl : RTable) (fuel : Nat) (loc : Location)
    (current : Option Route) (rf : Option Location) (nm : String) (record : RouteRecord)
    (hnorm : loc._normalized = true) (hname : loc.name = some nm)
    (hrec : tbl.nameMap nm = some record) :
    matchGo tbl (fuel + 1) (MCall.mtch (RawLocation.loc loc) current rf) =
      matchGo tbl fuel (MCall.mcreate (some record)
        { loc with
          params := inheritParams (paramNamesOf record) loc.params
            (match current with
             | some cur => cur.params
             | none => []),
          path := some (fillParams record.path
            (inheritParams (paramNamesOf record) loc.params
              (match current with
               | some cur => cur.params
               | none => []))) } rf) := by
  simp only [matchGo, normalizeLocation_normalized loc current false hnorm, hname, hrec]

theorem matchGo_path_independent (tbl : RTable) (fuel : Nat) (loc : Location)
    (cur cur2 : Option Route) (rf : Option Location)
    (hnorm : loc._normalized = true) (hname : loc.name = none) :
    matchGo tbl fuel (MCall.mtch (RawLocation.loc loc) cur rf) =
      matchGo tbl fuel (MCall.mtch (RawLocation.loc loc) cur2 rf) := by
  cases fuel with
  | zero => rfl
  | succ n =>
    simp only [matchGo, normalizeLocation_normalized loc cur false hnorm,
      normalizeLocation_normalized loc cur2 false hnorm, hname]

theorem takeWhile_append_all {pr : Char → Bool} (l1 l2 : List Char)
    (h : ∀ c ∈ l1, pr c = true) :
    (l1 ++ l2).takeWhile pr = l1 ++ l2.takeWhile pr := by
  induction l1 with
  | nil => simp
  | cons c rest ih =>
    have hc := h c (by simp)
    simp [List.takeWhile, hc]
    exact ih (fun d hd => h d (by simp [hd]))

theorem parsePath_path_of (p : String) (tail : List Char)
    (hp : ∀ ch ∈ p.data, ch ≠ '?' ∧ ch ≠ '#')
    (ht : tail = [] ∨ tail.head? = some '?' ∨ tail.head? = some '#') :
    (parsePath (String.mk (p.data ++ tail))).path = p := by
  have hpq : ∀ ch ∈ p.data, (ch != '?') = true := fun ch hc => by
    simp [bne]
    exact (hp ch hc).1
  have hph : ∀ ch ∈ p.data, (ch != '#') = true := fun ch hc => by
    simp [bne]
    exact (hp ch hc).2
  show String.mk (((p.data ++ tail).takeWhile (fun c => c != '#')).takeWhile
    (fun c => c != '?')) = p
  have e1 : p.data.takeWhile (fun c => c != '#') = p.data := by
    simpa using takeWhile_append_all p.data [] hph
  have e2 : p.data.takeWhile (fun c => c != '?') = p.data := by
    simpa using takeWhile_append_all p.data [] hpq
  rcases ht with h0 | h1 | h2
  · subst h0
    rw [List.append_nil, e1, e2]
  · rcases tail with _ | ⟨c, t⟩
    · simp at h1
    · have hc : c = '?' := by simpa using h1
      subst hc
      rw [takeWhile_append_all p.data _ hph]
      have : List.takeWhile (fun c => c != '#') ('?' :: t) =
          '?' :: List.takeWhile (fun c => c != '#') t := by
        simp [List.takeWhile]
      rw [this, takeWhile_append_all p.data _ hpq]
      simp [List.takeWhile]
  · rcases tail with _ | ⟨c, t⟩
    · simp at h2
    · have hc : c = '#' := by simpa using h2
      subst hc
      rw [takeWhile_append_all p.data _ hph]
      have : List.takeWhile (fun c => c != '#') ('#' :: t) = [] := by
        simp [List.takeWhile]
      rw [this, List.append_nil, e2]

theorem resolvePath_abs (relative base : String) (append : Bool)
    (h : relative.data.head? = some '/') :
    resolvePath relative base append = relative := by
  unfold resolvePath
  rw [h]
  rfl

theorem ne_empty_of_head {p : String} {c : Char} (h : p.data.head? = some c) :
    p ≠ "" := by
  intro hc
  subst hc
  simp at h

theorem parsePath_fullPath (loc2 : Location) (p : String)
    (hpath : loc2.path = some p)
    (hclean : ∀ ch ∈ p.data, ch ≠ '?' ∧ ch ≠ '#')
    (hhash : loc2.hash = "" ∨ loc2.hash.data.head? = some '#') :
    (parsePath (getFullPath loc2)).path = p := by
  have hdecomp : getFullPath loc2 =
      String.mk (p.data ++ ((stringifyQuery loc2.query).data ++ loc2.hash.data)) := by
    unfold getFullPath
    rw [hpath]
    show (p ++ stringifyQuery loc2.query ++ loc2.hash) = _
    have : (p ++ stringifyQuery loc2.query ++ loc2.hash).data =
        p.data ++ ((stringifyQuery loc2.query).data ++ loc2.hash.data) := by
      simp [String.data_append]
    rw [← this]
  rw [hdecomp]
  apply parsePath_path_of p _ hclean
  rcases hq : loc2.query with _ | ⟨kv, rest⟩
  · rcases hhash with hh | hh
    · left
      simp [stringifyQuery, hh]
    · right; right
      simpa [stringifyQuery] using hh
  · right; left
    simp [stringifyQuery]

theorem normalizeLocation_str_fields (s : String) (cur2 : Option Route) (p : String)
    (hparse : (parsePath s).path = p) (hne : p ≠ "") (habs : p.data.head? = some '/') :
    (normalizeLocation (RawLocation.str s) cur2 false).name = none ∧
    (normalizeLocation (RawLocation.str s) cur2 false).path = some p := by
  unfold normalizeLocation
  simp [hne, hparse, resolvePath_abs _ _ _ habs]

theorem matchGo_path_result (tbl : RTable) (n : Nat) (raw : RawLocation)
    (cur : Option Route) (rf : Option Location) (p : String) (record : RouteRecord)
    (params : Params)
    (hname : (normalizeLocation raw cur false).name = none)
    (hpath : (normalizeLocation raw cur false).path = some p)
    (hne : p ≠ "")
    (hscan : scanPathList tbl p tbl.pathList = some (record, params))
    (hnored : record.redirect = none) (hnoali : record.matchAs = none) :
    matchGo tbl (n + 2) (MCall.mtch raw cur rf) =
      some (createRoute (some record)
        { normalizeLocation raw cur false with params := params } rf) := by
  show matchGo tbl (n + 1 + 1) (MCall.mtch raw cur rf) = _
  simp only [matchGo, hname, hpath, hne, hscan, hnored, hnoali]
  simp [hne]

theorem stepQueue_proceed_front (errorCbsCount : Nat)
    (pre rest : List (Option GuardAction)) (eff : TransEffects)
    (hpre : ∀ g ∈ pre, g = none ∨ g = some (GuardAction.calls ContArg.proceed)) :
    stepQueue errorCbsCount (pre ++ rest) eff =
      stepQueue errorCbsCount rest
        { eff with guardsInvoked := eff.guardsInvoked + countProceed pre } := by
  induction pre generalizing eff with
  | nil => simp [countProceed]
  | cons g pre ih =>
    rcases hpre g (by simp) with hg | hg
    · subst hg
      have := ih { eff with guardsInvoked := eff.guardsInvoked } (fun g hgm => hpre g (by simp [hgm]))
      simpa [stepQueue, countProceed] using
        ih eff (fun g hgm => hpre g (by simp [hgm]))
    · subst hg
      have h2 := ih { eff with guardsInvoked := eff.guardsInvoked + 1 }
        (fun g hgm => hpre g (by simp [hgm]))
      simp [stepQueue, countProceed, h2, Nat.add_comm, Nat.add_assoc, Nat.add_left_comm]

/-! ## Claim theorems -/

/-- C4: for every pair of matched chains, the diff walks both from index 0
while records are identical, and with `i` the first divergence index
yields `updated = target.take i`, `activated = target.drop i`,
`deactivated = current.drop i`; in particular chains `[A,B,C]` versus
`[A,B,D]` (four distinct records) yield `updated = [A,B]`,
`activated = [D]`, `deactivated = [C]`. -/
theorem claim_C4 :
    (∀ (α : Type) [DecidableEq α] (cur nxt : List α) (i : Nat),
      (∀ j < i, cur[j]? = nxt[j]?) → cur[i]? ≠ nxt[i]? →
      resolveQueue cur nxt = (nxt.take i, nxt.drop i, cur.drop i)) ∧
    resolveQueue [0, 1, 2] [0, 1, 3] = ([0, 1], [3], [2]) := by
  refine ⟨?_, by decide⟩
  intro α _ cur nxt i hpre hne
  simp [resolveQueue, divergeIdx_eq_of cur nxt i hpre hne]

theorem claim_C4_witness :
    resolveQueue ["recA", "recB", "recC"] ["recA", "recB", "recD"] =
      (["recA", "recB"], ["recD"], ["recC"]) :=
  claim_C4.1 String ["recA", "recB", "recC"] ["recA", "recB", "recD"] 2
    (by decide) (by decide)

/-- C1 counterexample: in a router state whose `history.current` is no
longer the START sentinel, `VueRouter.addRoutes` does start a
`transitionTo` (to `getCurrentLocation()`), contradicting the claim that
no transition is triggered for every router state. -/
theorem claim_C1_counterexample :
    (routerAddRoutes { table := RTable.empty, current := some {} } 5
      [RouteConfig.mk "/new" none none [] [] false] "/cur").2 ≠ [] := by
  intro h
  simp [routerAddRoutes] at h

/-- C1 amended: `addRoutes` mutates the three lookup structures in place
(the new table is exactly `createRouteMap` over the existing one, the
matcher-level `addRoutes`); the call itself leaves `current` untouched;
and `VueRouter.addRoutes` starts no transition exactly when
`history.current` is still the START sentinel — otherwise it starts
exactly one `transitionTo(getCurrentLocation())`. -/
theorem claim_C1_amended (s : RouterState) (fuel : Nat) (routes : List RouteConfig)
    (loc : String) :
    (routerAddRoutes s fuel routes loc).1.table = matcherAddRoutes s.table fuel routes ∧
    (routerAddRoutes s fuel routes loc).1.current = s.current ∧
    (routerAddRoutes s fuel routes loc).2 = (if s.current.isNone then [] else [loc]) := by
  unfold routerAddRoutes
  by_cases h : s.current.isNone <;> simp [h]

/-- C3: a transition whose target route equals the current one
(path/name/params/query/hash) with an equal-length matched chain aborts
with the NavigationDuplicated condition: the URL is resynchronized
(`ensureURL()`), `onAbort` fires exactly once with the duplicate
condition, no guard of either queue is ever invoked, nothing is committed,
and the error is never delivered to the registered error listeners. -/
theorem claim_C3 (errorCbsCount : Nat) (current route : Route)
    (queue postQueue : List (Option GuardAction))
    (hsame : isSameRoute route current = true)
    (hlen : route.matched.length = current.matched.length) :
    confirmTransition errorCbsCount current route queue postQueue =
      { ensureURLCalls := [false],
        errorFanouts := [],
        onAbortCalls := [some (AbortVal.vDup route)],
        pushCalls := [],
        replaceCalls := [],
        committed := none,
        guardsInvoked := 0 } := by
  unfold confirmTransition
  simp [hsame, hlen, abortEff]

theorem claim_C3_witness :
    confirmTransition 1 {} {} [some (GuardAction.calls ContArg.isFalse)] [] =
      { ensureURLCalls := [false],
        errorFanouts := [],
        onAbortCalls := [some (AbortVal.vDup {})],
        pushCalls := [],
        replaceCalls := [],
        committed := none,
        guardsInvoked := 0 } :=
  claim_C3 1 {} {} [some (GuardAction.calls ContArg.isFalse)] [] (by decide) rfl

/-- C10: `push` and `replace` called without callbacks, with Promise
available, return a promise that resolves with the route on completion and
rejects with the error on abort (and invoke no callback); with either
callback supplied they return `undefined` and the navigation outcome is
delivered through the supplied callbacks instead. -/
theorem claim_C10 (onComplete onAbort : Option Nat) (outcome : NavOutcome) :
    (onComplete = none → onAbort = none →
      (∀ r, outcome = NavOutcome.completes r →
        routerPush true onComplete onAbort outcome = (some (PromiseState.resolved r), []) ∧
        routerReplace true onComplete onAbort outcome = (some (PromiseState.resolved r), [])) ∧
      (∀ e, outcome = NavOutcome.aborts e →
        routerPush true onComplete onAbort outcome = (some (PromiseState.rejected e), []) ∧
        routerReplace true onComplete onAbort outcome = (some (PromiseState.rejected e), []))) ∧
    (onComplete.isSome ∨ onAbort.isSome →
      (routerPush true onComplete onAbort outcome).1 = none ∧
      (routerPush true onComplete onAbort outcome).2 =
        historyPushCalls outcome onComplete onAbort ∧
      (routerReplace true onComplete onAbort outcome).1 = none ∧
      (routerReplace true onComplete onAbort outcome).2 =
        historyPushCalls outcome onComplete onAbort) := by
  constructor
  · intro hoc hoa
    subst hoc
    subst hoa
    constructor
    · intro r hr
      subst hr
      exact ⟨rfl, rfl⟩
    · intro e he
      subst he
      exact ⟨rfl, rfl⟩
  · intro hsome
    have hcond : (onComplete.isNone && onAbort.isNone && true) = false := by
      rcases hsome with h | h <;> cases onComplete <;> cases onAbort <;> simp_all
    constructor
    · simp [routerPush, hcond]
    constructor
    · simp [routerPush, hcond]
    constructor
    · simp [routerReplace, hcond]
    · simp [routerReplace, hcond]

theorem claim_C10_witness :
    routerPush true none none (NavOutcome.completes {}) =
      (some (PromiseState.resolved {}), []) :=
  (((claim_C10 none none (NavOutcome.completes {})).1 rfl rfl).1 {} rfl).1

/-- C2: in a (non-duplicate) transition whose guards so far all proceeded,
a guard calling its continuation with `false` resyncs the URL to the
previous route (`ensureURL(true)`), triggers `onAbort` exactly once (with
`false`, no error fan-out) and commits nothing; likewise with an error
value (which additionally fans out to the error listeners); a guard
calling it with a redirect location aborts the queue (one `onAbort` with
no argument), never commits the original target, and triggers exactly one
subsequent navigation — `replace` when the target object carries the
`replace` flag, `push` otherwise. -/
theorem claim_C2 (errorCbsCount : Nat) (current route : Route)
    (pre rest postQueue : List (Option GuardAction))
    (hdup : (isSameRoute route current && route.matched.length == current.matched.length) = false)
    (hpre : ∀ g ∈ pre, g = none ∨ g = some (GuardAction.calls ContArg.proceed)) :
    (confirmTransition errorCbsCount current route
        (pre ++ some (GuardAction.calls ContArg.isFalse) :: rest) postQueue =
      { ensureURLCalls := [true],
        errorFanouts := [],
        onAbortCalls := [some AbortVal.vFalse],
        committed := none,
        guardsInvoked := countProceed pre + 1 }) ∧
    (∀ e, confirmTransition errorCbsCount current route
        (pre ++ some (GuardAction.calls (ContArg.isErr e)) :: rest) postQueue =
      { ensureURLCalls := [true],
        errorFanouts := if 0 < errorCbsCount then [AbortVal.vErr e] else [],
        onAbortCalls := [some (AbortVal.vErr e)],
        committed := none,
        guardsInvoked := countProceed pre + 1 }) ∧
    (∀ t, confirmTransition errorCbsCount current route
        (pre ++ some (GuardAction.calls (ContArg.toLoc t)) :: rest) postQueue =
      { onAbortCalls := [none],
        pushCalls := match t with
          | RedirTo.robj _ _ true => []
          | _ => [t],
        replaceCalls := match t with
          | RedirTo.robj _ _ true => [t]
          | _ => [],
        committed := none,
        guardsInvoked := countProceed pre + 1 }) ∧
    (∀ t,
      ((confirmTransition errorCbsCount current route
        (pre ++ some (GuardAction.calls (ContArg.toLoc t)) :: rest) postQueue).pushCalls.length +
       (confirmTransition errorCbsCount current route
        (pre ++ some (GuardAction.calls (ContArg.toLoc t)) :: rest) postQueue).replaceCalls.length)
        = 1) := by
  have hfalse := stepQueue_proceed_front errorCbsCount pre
    (some (GuardAction.calls ContArg.isFalse) :: rest) {} hpre
  refine ⟨?_, ?_, ?_, ?_⟩
  · unfold confirmTransition
    rw [hdup]
    simp only [Bool.false_eq_true, if_false]
    rw [hfalse]
    simp [stepQueue, abortEff]
  · intro e
    unfold confirmTransition
    rw [hdup]
    simp only [Bool.false_eq_true, if_false]
    rw [stepQueue_proceed_front errorCbsCount pre
      (some (GuardAction.calls (ContArg.isErr e)) :: rest) {} hpre]
    simp [stepQueue, abortEff]
  · intro t
    unfold confirmTransition
    rw [hdup]
    simp only [Bool.false_eq_true, if_false]
    rw [stepQueue_proceed_front errorCbsCount pre
      (some (GuardAction.calls (ContArg.toLoc t)) :: rest) {} hpre]
    rcases t with s | ⟨rp, rn, rep⟩
    · simp [stepQueue, abortEff]
    · cases rep <;> simp [stepQueue, abortEff]
  · intro t
    unfold confirmTransition
    rw [hdup]
    simp only [Bool.false_eq_true, if_false]
    rw [stepQueue_proceed_front errorCbsCount pre
      (some (GuardAction.calls (ContArg.toLoc t)) :: rest) {} hpre]
    rcases t with s | ⟨rp, rn, rep⟩
    · simp [stepQueue, abortEff]
    · cases rep <;> simp [stepQueue, abortEff]

theorem claim_C2_witness :
    confirmTransition 1 {} { path := "/other" }
        [none, some (GuardAction.calls ContArg.proceed),
         some (GuardAction.calls ContArg.isFalse)] [] =
      { ensureURLCalls := [true],
        errorFanouts := [],
        onAbortCalls := [some AbortVal.vFalse],
        committed := none,
        guardsInvoked := 2 } :=
  (claim_C2 1 {} { path := "/other" }
    [none, some (GuardAction.calls ContArg.proceed)] [] []
    (by decide) (by decide)).1

/-- C9: a guard that throws synchronously is caught by the iterator and
routed through the single abort path: the error is delivered to every
registered error listener (when any are registered) and to `onAbort`, the
run returns normally (the exception never escapes `transitionTo` — the
effect trace below is total), nothing is committed, and the current route
is unchanged.  Unlike `next(false)`, a thrown error does not resync the
URL. -/
theorem claim_C9 (errorCbsCount : Nat) (current route : Route) (e : Nat)
    (pre rest postQueue : List (Option GuardAction))
    (hdup : (isSameRoute route current && route.matched.length == current.matched.length) = false)
    (hpre : ∀ g ∈ pre, g = none ∨ g = some (GuardAction.calls ContArg.proceed)) :
    confirmTransition errorCbsCount current route
        (pre ++ some (GuardAction.throws e) :: rest) postQueue =
      { errorFanouts := if 0 < errorCbsCount then [AbortVal.vErr e] else [],
        onAbortCalls := [some (AbortVal.vErr e)],
        committed := none,
        guardsInvoked := countProceed pre + 1 } := by
  unfold confirmTransition
  rw [hdup]
  simp only [Bool.false_eq_true, if_false]
  rw [stepQueue_proceed_front errorCbsCount pre
    (some (GuardAction.throws e) :: rest) {} hpre]
  simp [stepQueue, abortEff]

theorem claim_C9_witness :
    confirmTransition 2 {} { path := "/other" }
        [some (GuardAction.calls ContArg.proceed), some (GuardAction.throws 7)] [] =
      { errorFanouts := [AbortVal.vErr 7],
        onAbortCalls := [some (AbortVal.vErr 7)],
        committed := none,
        guardsInvoked := 2 } :=
  claim_C9 2 {} { path := "/other" } 7 [some (GuardAction.calls ContArg.proceed)] [] []
    (by decide) (by decide)

theorem raDiscover_silent (defs : List ViewDef) (s : RAState)
    (h : allSilent defs = true) :
    (raDiscover defs s).pending = s.pending + countFactories defs ∧
    (raDiscover defs s).nextCalls = s.nextCalls ∧
    (raDiscover defs s).hasAsync = (s.hasAsync || decide (0 < countFactories defs)) := by
  induction defs generalizing s with
  | nil => simp [raDiscover, countFactories]
  | cons d rest ih =>
    cases d with
    | concrete v =>
      have hrest : allSilent rest = true := by
        simpa [allSilent] using h
      have := ih { s with } hrest
      simpa [raDiscover, countFactories, allSilent] using ih s hrest
    | factory id beh =>
      have hbeh : beh = FactBeh.silent := by
        have := h
        simp [allSilent] at this
        exact this.1
      subst hbeh
      have hrest : allSilent rest = true := by
        simpa [allSilent] using h
      have hrec := ih { s with hasAsync := true, pending := s.pending + 1 } hrest
      simp [raDiscover, countFactories, allSilent] at hrec ⊢
      refine ⟨by omega, hrec.2.1, hrec.2.2⟩

/-- C8: for every activated chain, the async view-resolution step keeps a
pending counter that (when every factory settles asynchronously) ends the
discovery pass at the number of factory-form definitions discovered, with
the continuation fired synchronously (once, with no argument) exactly when
no factory was discovered; a fresh resolution decrements the counter and
fires the continuation exactly when it reaches zero; the first rejection
fails the step with its reason via `next(error)`; a rejection arriving
after an error is latched changes nothing; and a repeated resolution or
rejection of an already-settled factory is a no-op. -/
theorem claim_C8 :
    (∀ defs : List ViewDef, allSilent defs = true →
      (resolveAsyncComponents defs).pending = countFactories defs ∧
      (resolveAsyncComponents defs).nextCalls =
        (if countFactories defs = 0 then [none] else [])) ∧
    (∀ (s : RAState) (id v : Nat), id ∉ s.resolvedOnce →
      (raResolve id v s).pending = s.pending - 1 ∧
      (raResolve id v s).nextCalls =
        s.nextCalls ++ (if s.pending - 1 = 0 then [none] else [])) ∧
    (∀ (s : RAState) (id v : Nat), id ∈ s.resolvedOnce → raResolve id v s = s) ∧
    (∀ (s : RAState) (id e : Nat), id ∉ s.rejectedOnce → s.error = none →
      (raReject id e s).error = some e ∧
      (raReject id e s).nextCalls = s.nextCalls ++ [some e]) ∧
    (∀ (s : RAState) (id e : Nat), id ∉ s.rejectedOnce → s.error.isSome →
      (raReject id e s).error = s.error ∧
      (raReject id e s).nextCalls = s.nextCalls) ∧
    (∀ (s : RAState) (id e : Nat), id ∈ s.rejectedOnce → raReject id e s = s) := by
  refine ⟨?_, ?_, ?_, ?_, ?_, ?_⟩
  · intro defs h
    have hd := raDiscover_silent defs {} h
    unfold resolveAsyncComponents
    rcases Nat.eq_zero_or_pos (countFactories defs) with hz | hp
    · have hA : (raDiscover defs {}).hasAsync = false := by
        simp [hd.2.2, hz]
      constructor
      · simp [hA, hd.1]
      · simp [hA, hd.2.1, hz]
    · have hA : (raDiscover defs {}).hasAsync = true := by
        simp [hd.2.2, hp]
      constructor
      · simp [hA, hd.1]
      · simp [hA, hd.2.1, Nat.pos_iff_ne_zero.mp hp]
  · intro s id v hid
    simp [raResolve, hid]
    by_cases hp : s.pending - 1 = 0 <;> simp [hp]
  · intro s id v hid
    simp [raResolve, hid]
  · intro s id e hid herr
    simp [raReject, hid, herr]
  · intro s id e hid herr
    rcases hsome : s.error with _ | e0
    · rw [hsome] at herr
      simp at herr
    · simp [raReject, hid, hsome]
  · intro s id e hid
    simp [raReject, hid]

/-- C7 counterexample: in the fixture table, `/a/:x` registers before the
named route `B` at `/a/b`; matching `{name: "B"}` (already normalized, its
record free of `redirect` and `matchAs`) yields a Route with fullPath
`/a/b` and matched chain `[/a/b]`, but re-matching that fullPath scans
`pathList` in priority order and resolves to the `/a/:x` record — the
matched chains differ, so `match` is not idempotent for this location. -/
theorem claim_C7_counterexample :
    (matchFn shadowTbl 10 (RawLocation.loc { name := some "B" }) none none).map
        (fun r => (r.fullPath, r.matched.map RouteRecord.path)) =
      some ("/a/b", ["/a/b"]) ∧
    (matchFn shadowTbl 10 (RawLocation.str "/a/b") none none).map
        (fun r => r.matched.map RouteRecord.path) = some ["/a/:x"] ∧
    (shadowTbl.nameMap "B").map (fun r => (r.redirect.isNone, r.matchAs.isNone)) =
      some (true, true) ∧
    (matchFn shadowTbl 10 (RawLocation.str "/a/b") none none).map Route.matched ≠
      (matchFn shadowTbl 10 (RawLocation.loc { name := some "B" }) none none).map
        Route.matched := by
  refine ⟨by decide, by decide, by decide, fun h => ?_⟩
  have h2 := congrArg (Option.map (List.map RouteRecord.path)) h
  rw [Option.map_map, Option.map_map] at h2
  revert h2
  decide

/-- C7 amended: restricted to path-driven locations the idempotence
holds — for every already-normalized location that carries a path (no
name), whose path is absolute and free of query/hash separators, whose
hash is empty or well-formed, and whose priority-ordered scan resolves to
a record without `redirect` and without `matchAs`, the first match yields
a Route with that record's chain, and re-matching the Route's own
`fullPath` yields the identical matched chain.  (Named locations are
excluded: the path their template fills can be shadowed by an earlier
pattern in `pathList`, as the counterexample shows.) -/
theorem claim_C7_amended (tbl : RTable) (fuel fuel2 : Nat) (loc : Location)
    (cur cur2 : Option Route) (p : String) (record : RouteRecord) (params : Params)
    (hnorm : loc._normalized = true) (hname : loc.name = none) (hpath : loc.path = some p)
    (habs : p.data.head? = some '/')
    (hclean : ∀ ch ∈ p.data, ch ≠ '?' ∧ ch ≠ '#')
    (hhash : loc.hash = "" ∨ loc.hash.data.head? = some '#')
    (hscan : scanPathList tbl p tbl.pathList = some (record, params))
    (hnored : record.redirect = none) (hnoali : record.matchAs = none) :
    (matchFn tbl (fuel + 2) (RawLocation.loc loc) cur none).map
        (fun r => (r.fullPath, r.matched)) =
      some (getFullPath { loc with params := params }, formatMatch record) ∧
    (matchFn tbl (fuel2 + 2)
        (RawLocation.str (getFullPath { loc with params := params })) cur2 none).map
        Route.matched = some (formatMatch record) := by
  have hne : p ≠ "" := ne_empty_of_head habs
  have hnl := normalizeLocation_normalized loc cur false hnorm
  constructor
  · have h1 := matchGo_path_result tbl fuel (RawLocation.loc loc) cur none p record params
      (by rw [hnl]; exact hname) (by rw [hnl]; exact hpath) hne hscan hnored hnoali
    unfold matchFn
    rw [h1, hnl]
    simp [createRoute]
  · have hparse : (parsePath (getFullPath { loc with params := params })).path = p :=
      parsePath_fullPath { loc with params := params } p hpath hclean hhash
    have hf := normalizeLocation_str_fields (getFullPath { loc with params := params })
      cur2 p hparse hne habs
    have h2 := matchGo_path_result tbl fuel2
      (RawLocation.str (getFullPath { loc with params := params })) cur2 none p record params
      hf.1 hf.2 hne hscan hnored hnoali
    unfold matchFn
    rw [h2]
    simp [createRoute]

theorem claim_C7_witness :
    (matchFn shadowTbl 3
        (RawLocation.loc { _normalized := true, path := some "/a/zz" }) none none).map
        (fun r => (r.fullPath, r.matched)) =
      some (getFullPath
        { ({ _normalized := true, path := some "/a/zz" } : Location) with
          params := [("x", some "zz")] }, formatMatch recAX) ∧
    (matchFn shadowTbl 3
        (RawLocation.str (getFullPath
          { ({ _normalized := true, path := some "/a/zz" } : Location) with
            params := [("x", some "zz")] })) none none).map
        Route.matched = some (formatMatch recAX) :=
  claim_C7_amended shadowTbl 1 1 { _normalized := true, path := some "/a/zz" } none none
    "/a/zz" recAX [("x", some "zz")] rfl rfl rfl rfl (by decide) (Or.inl rfl) rfl rfl rfl

/-- C6: for every declaration list folded into any table already
satisfying the invariant (so in particular the initial build and every
incremental `addRoutes` on top of it), the built table has a `pathMap`
record exactly for the paths listed in `pathList`, `pathList` has no
duplicate path strings, and the final path list is the wildcard-stable
partition of the registration-ordered list: all non-`*` entries first,
then all `*` entries, each group keeping its relative registration
order. -/
theorem claim_C6 (fuel : Nat) (routes : List RouteConfig) (old : RTable)
    (hold : TableInv old) :
    TableInv (createRouteMap fuel routes old) ∧
    (createRouteMap fuel routes old).pathList =
      (addRouteRecordGo fuel (BCall.many routes none none) old).pathList.filter
          (fun p => p != "*") ++
        (addRouteRecordGo fuel (BCall.many routes none none) old).pathList.filter
          (fun p => p == "*") := by
  have hinv := addRouteRecordGo_inv fuel (BCall.many routes none none) old hold
  have hshape : (createRouteMap fuel routes old).pathList =
      (addRouteRecordGo fuel (BCall.many routes none none) old).pathList.filter
          (fun p => p != "*") ++
        (addRouteRecordGo fuel (BCall.many routes none none) old).pathList.filter
          (fun p => p == "*") := by
    simp [createRouteMap, wildcardLoop_eq]
  refine ⟨⟨?_, ?_⟩, hshape⟩
  · intro p
    have hperm := filter_partition_perm
      (addRouteRecordGo fuel (BCall.many routes none none) old).pathList
    have hmap : (createRouteMap fuel routes old).pathMap =
        (addRouteRecordGo fuel (BCall.many routes none none) old).pathMap := by
      simp [createRouteMap]
    rw [hmap, hshape]
    rw [hperm.mem_iff]
    exact hinv.1 p
  · rw [hshape]
    exact (filter_partition_perm _).nodup_iff.mpr hinv.2

theorem claim_C6_witness :
    TableInv (createRouteMap 10 shadowRoutes RTable.empty) :=
  (claim_C6 10 shadowRoutes RTable.empty ⟨fun p => by simp [RTable.empty], List.nodup_nil⟩).1

/-- C5: in named matching, the inherited-parameter merge copies into
`location.params` exactly those keys of `currentRoute.params` that are
required (non-optional) parameter names of the named record's pattern and
absent from `location.params` — and this merged map is what fills the path
template; keys that are not required parameter names (in particular names
whose only pattern key is optional) are never inherited; and path-based
matching of an already-normalized location is entirely independent of the
current route. -/
theorem claim_C5 :
    (∀ (pNames : List String) (locParams curParams : Params) (k : String) (v : Option String),
      assocFind k locParams = none → assocFind k curParams = some v → k ∈ pNames →
      assocFind k (inheritParams pNames locParams curParams) = some v) ∧
    (∀ (pNames : List String) (locParams curParams : Params) (k : String),
      k ∉ pNames →
      assocFind k (inheritParams pNames locParams curParams) = assocFind k locParams) ∧
    (∀ (record : RouteRecord) (k : String),
      RKey.mk k false ∉ record.keys → k ∉ paramNamesOf record) ∧
    (∀ (tbl : RTable) (fuel : Nat) (loc : Location) (current : Option Route)
       (rf : Option Location) (nm : String) (record : RouteRecord),
      loc._normalized = true → loc.name = some nm → tbl.nameMap nm = some record →
      matchGo tbl (fuel + 1) (MCall.mtch (RawLocation.loc loc) current rf) =
        matchGo tbl fuel (MCall.mcreate (some record)
          { loc with
            params := inheritParams (paramNamesOf record) loc.params
              (match current with
               | some cur => cur.params
               | none => []),
            path := some (fillParams record.path
              (inheritParams (paramNamesOf record) loc.params
                (match current with
                 | some cur => cur.params
                 | none => []))) } rf)) ∧
    (∀ (tbl : RTable) (fuel : Nat) (loc : Location) (cur cur2 : Option Route)
       (rf : Option Location),
      loc._normalized = true → loc.name = none →
      matchGo tbl fuel (MCall.mtch (RawLocation.loc loc) cur rf) =
        matchGo tbl fuel (MCall.mtch (RawLocation.loc loc) cur2 rf)) := by
  refine ⟨?_, ?_, ?_, ?_, ?_⟩
  · intro pNames locParams curParams k v hloc hcur hmem
    exact inheritParams_required hloc hcur hmem
  · intro pNames locParams curParams k hk
    exact inheritParams_not_required hk locParams curParams
  · intro record k hk
    intro hmem
    simp only [paramNamesOf, List.mem_map, List.mem_filter] at hmem
    rcases hmem with ⟨kk, ⟨hkmem, hkopt⟩, hkname⟩
    rcases kk with ⟨kn, ko⟩
    simp at hkopt hkname
    subst hkname
    subst hkopt
    exact hk hkmem
  · intro tbl fuel loc current rf nm record hnorm hname hrec
    exact matchGo_named_branch tbl fuel loc current rf nm record hnorm hname hrec
  · intro tbl fuel loc cur cur2 rf hnorm hname
    exact matchGo_path_independent tbl fuel loc cur cur2 rf hnorm hname

theorem claim_C5_witness :
    assocFind "uid"
        (inheritParams (paramNamesOf recUP) [] [("uid", some "7"), ("pid", some "9")]) =
      some (some "7") ∧
    assocFind "pid"
        (inheritParams (paramNamesOf recUP) [] [("uid", some "7"), ("pid", some "9")]) =
      assocFind "pid" ([] : Params) :=
  ⟨claim_C5.1 (paramNamesOf recUP) [] [("uid", some "7"), ("pid", some "9")]
      "uid" (some "7") rfl (by decide) (by decide),
   claim_C5.2.1 (paramNamesOf recUP) [] [("uid", some "7"), ("pid", some "9")]
      "pid" (claim_C5.2.2.1 recUP "pid" (by decide))⟩

theorem claim_C8_witness :
    (resolveAsyncComponents [ViewDef.concrete 5, ViewDef.factory 0 FactBeh.silent]).pending = 1 ∧
    (resolveAsyncComponents [ViewDef.concrete 5, ViewDef.factory 0 FactBeh.silent]).nextCalls = [] ∧
    (resolveAsyncComponents [ViewDef.concrete 5]).nextCalls = [none] :=
  ⟨(claim_C8.1 [ViewDef.concrete 5, ViewDef.factory 0 FactBeh.silent] (by decide)).1,
   (claim_C8.1 [ViewDef.concrete 5, ViewDef.factory 0 FactBeh.silent] (by decide)).2,
   (claim_C8.1 [ViewDef.concrete 5] (by decide)).2⟩

end VueRouter
